import Mathlib

/-!
Shallow embedding of the tonto card game (card, deck, player, ranking
engine, round/turn orchestrator) together with theorems about its
leaderboard and state-machine behaviour.

Conventions of the embedding:
* a `Deck` is a `List Card` with the top of the deck at the END of the
  list (`add_card` appends, `get_card` pops the last element), matching
  the Python list used by the source;
* mutation is explicit state passing; Python exceptions become
  `Option`/`Except` results;
* the pluggable random shuffle is a function parameter
  `perm : List Card → List Card` (assumed to be a permutation where a
  theorem needs it);
* `hasattr`-style dynamic attribute lookup on the `Players` object is
  modelled by an explicit list of the attribute names that exist on a
  freshly constructed `Players` instance before any player has been
  registered (instance attributes set in `__init__` before the loop,
  methods of the class, and the special method names every Python object
  carries).
-/

namespace Tonto

/-- Suits, in the declared order of `Card.SUIT`
(`IntEnum("Suit", "Spades Diamonds Hearts Clubs")`, values 1..4). -/
inductive Suit where
  | spades
  | diamonds
  | hearts
  | clubs
deriving DecidableEq, Repr

/-- Integer value of a suit (`IntEnum` ordinal, starting at 1). -/
def Suit.value : Suit → Nat
  | .spades => 1
  | .diamonds => 2
  | .hearts => 3
  | .clubs => 4

/-- Ranks, in the declared order of `Card.RANK`
(`IntEnum("Rank", ALL_RANKS, start=2)`: "2".."10", Jack, Queen, King, Ace). -/
inductive Rank where
  | r2
  | r3
  | r4
  | r5
  | r6
  | r7
  | r8
  | r9
  | r10
  | jack
  | queen
  | king
  | ace
deriving DecidableEq, Repr

/-- Integer value of a rank (`IntEnum` value, 2..14). -/
def Rank.value : Rank → Nat
  | .r2 => 2
  | .r3 => 3
  | .r4 => 4
  | .r5 => 5
  | .r6 => 6
  | .r7 => 7
  | .r8 => 8
  | .r9 => 9
  | .r10 => 10
  | .jack => 11
  | .queen => 12
  | .king => 13
  | .ace => 14

/-- A playing card (`Card` in `card.py`); equality is by rank and suit. -/
structure Card where
  suit : Suit
  rank : Rank
deriving DecidableEq, Repr

/-- `Card.score`: the suit value multiplied by the rank value. -/
def Card.score (c : Card) : Nat := c.suit.value * c.rank.value

/-- The declared list of all suits, in `Card.SUIT` order. -/
def allSuits : List Suit := [.spades, .diamonds, .hearts, .clubs]

/-- The declared list of all ranks, in `Card.RANK` order. -/
def allRanks : List Rank :=
  [.r2, .r3, .r4, .r5, .r6, .r7, .r8, .r9, .r10, .jack, .queen, .king, .ace]

/-- `Deck._initiate_deck`: the standard 52-card list,
`[Card(suit, rank) for suit in Card.SUIT for rank in Card.RANK]`
(suit-major, rank-minor). -/
def initiateDeck : List Card :=
  (allSuits.map (fun s => allRanks.map (fun r => Card.mk s r))).flatten

/-- `Deck.get_card`: pop the card from the top (end) of the deck;
`none` models raising `DeckEmptyError`. -/
def getCard (d : List Card) : Option (Card × List Card) :=
  match d.getLast? with
  | some c => some (c, d.dropLast)
  | none => none

/-- `Deck.add_card`: push a card on top (append at the end). -/
def addCard (d : List Card) (c : Card) : List Card := d ++ [c]

/-- A player (`Player` in `player.py`): a name and a hand, the hand in
draw order. Equality (`Player.__eq__`) is by name and hand. -/
structure Player where
  name : String
  hand : List Card
deriving DecidableEq, Repr

/-- `Player.draw_card`: append the card to the hand. -/
def Player.drawCard (p : Player) (c : Card) : Player :=
  { p with hand := p.hand ++ [c] }

/-- `Player.clear_hand`: empty the hand. -/
def Player.clearHand (p : Player) : Player := { p with hand := [] }

/-- `Player.score(round_number)`: for `round_number = 0` the sum of the
card scores over the whole hand; for `round_number = r > 0` the score of
the `r`-th drawn card, or `0` when the hand has fewer than `r` cards. -/
def Player.score (p : Player) (roundNumber : Nat) : Nat :=
  if roundNumber ≠ 0 then
    if roundNumber > p.hand.length then 0
    else
      match p.hand[roundNumber - 1]? with
      | some c => c.score
      | none => 0
  else (p.hand.map Card.score).sum

/-- The `Place` namedtuple of `player.py`. -/
structure PlaceNT where
  player : Option Player
  players : List Player
  name : Option String
  names : List String
  place : Nat
  score : Nat
  tie : Bool
deriving DecidableEq, Repr

/-- `EMPTY_PLACE = PLACE(None, [], None, [], 0, 0, False)`. -/
def EMPTY_PLACE : PlaceNT :=
  { player := none, players := [], name := none, names := [], place := 0,
    score := 0, tie := false }

namespace Players

/-- The comparison used by
`sorted(self._players, key=lambda x: x.score(rn), reverse=True)`:
`a` may come before `b` iff `b`'s score does not exceed `a`'s. -/
def playerLe (rn : Nat) (a b : Player) : Prop :=
  b.score rn ≤ a.score rn

instance (rn : Nat) : DecidableRel (playerLe rn) :=
  fun a b => inferInstanceAs (Decidable (b.score rn ≤ a.score rn))

instance (rn : Nat) : IsTotal Player (playerLe rn) :=
  ⟨fun a b => Nat.le_total (b.score rn) (a.score rn)⟩

instance (rn : Nat) : IsTrans Player (playerLe rn) :=
  ⟨fun _ _ _ h1 h2 => Nat.le_trans h2 h1⟩

/-- The stable descending sort of the player list by `score(rn)`.
Python's `sorted` is stable (also with `reverse=True`), and a stable
sort's output is uniquely determined by the comparison relation, so the
structural stable `insertionSort` models it exactly. -/
def sortPlayers (ps : List Player) (rn : Nat) : List Player :=
  ps.insertionSort (playerLe rn)

/-- The grouping sweep of `Players._get_leaderboard` (fuel-indexed so
that the recursion is structural): starting from the head of the
(sorted) list, collect the maximal run of players whose `score(rn)`
equals the run head's score, then continue after the run. The fuel only
ever runs out on lists longer than the initial fuel, which
`groupRuns` rules out by starting from the list's length. -/
def groupRunsAux (rn : Nat) : Nat → List Player → List (List Player)
  | _, [] => []
  | 0, _ :: _ => []
  | fuel + 1, p :: rest =>
    (p :: rest.takeWhile (fun q => decide (q.score rn = p.score rn))) ::
      groupRunsAux rn fuel
        (rest.dropWhile (fun q => decide (q.score rn = p.score rn)))

/-- The grouping sweep of `Players._get_leaderboard`. -/
def groupRuns (rn : Nat) (l : List Player) : List (List Player) :=
  groupRunsAux rn l.length l

/-- Build the `PLACE` namedtuple for one group (`lis` in the source):
representative is the first player of the group, score is the group
head's, `tie` iff the group has more than one member. (The `[]` case is
unreachable: groups produced by `groupRuns` are never empty.) -/
def mkPlace (rn : Nat) (placeNumber : Nat) (lis : List Player) : PlaceNT :=
  match lis with
  | [] => EMPTY_PLACE
  | p0 :: _ =>
    { player := some p0, players := lis, name := some p0.name,
      names := lis.map Player.name, place := placeNumber,
      score := p0.score rn, tie := decide (lis.length > 1) }

/-- `Players._get_leaderboard(rn)`: sort descending by `score(rn)`,
group equal scores, and number the groups 1, 2, 3, ... in order. The
Python dict (insertion-ordered, keyed by place number) is modelled as
the list of `PLACE` values in place order. -/
def getLeaderboard (ps : List Player) (rn : Nat) : List PlaceNT :=
  ((groupRuns rn (sortPlayers ps rn)).enum).map
    (fun ig => mkPlace rn (ig.1 + 1) ig.2)

/-- `leaderboard.get(k, EMPTY_PLACE)`: the place whose number is `k`,
or `EMPTY_PLACE` when no such key exists. -/
def lookupPlace (lb : List PlaceNT) (k : Nat) : PlaceNT :=
  match lb.find? (fun pl => pl.place == k) with
  | some pl => pl
  | none => EMPTY_PLACE

/-- `Players.first(round_number)`. -/
def first (ps : List Player) (rn : Nat) : PlaceNT :=
  lookupPlace (getLeaderboard ps rn) 1

/-- `Players.second(round_number)`. -/
def second (ps : List Player) (rn : Nat) : PlaceNT :=
  lookupPlace (getLeaderboard ps rn) 2

/-- `Players.third(round_number)`. -/
def third (ps : List Player) (rn : Nat) : PlaceNT :=
  lookupPlace (getLeaderboard ps rn) 3

/-- One line of `Players.__str__`: `"{place}: {player} ({score})"`. -/
def renderLine (place : Nat) (playerName : String) (score : Nat) : String :=
  toString place ++ ": " ++ playerName ++ " (" ++ toString score ++ ")"

/-- The list of leaderboard lines built by `Players.__str__`: for each
place in place order, one line per member name in group order. -/
def leaderboardLines (ps : List Player) : List String :=
  ((getLeaderboard ps 0).map
    (fun pl => pl.names.map (fun n => renderLine pl.place n pl.score))).flatten

/-- `Players.__str__`: the lines joined by `"\n"` (so no trailing
newline, and the empty string when there are no lines). -/
def str (ps : List Player) : String :=
  String.intercalate "\n" (leaderboardLines ps)

/-- `Players.reset`: clear every player's hand, keeping membership and
order. -/
def reset (ps : List Player) : List Player := ps.map Player.clearHand

end Players

/-- The attribute names that `hasattr(self, name)` can already see on a
`Players` instance at the start of `Players.__init__`'s registration
loop: the instance attributes assigned before the loop
(`_current_player`, `_players`), the methods defined by the `Players`
class, and the special attributes every Python object carries. -/
def playersBaseAttrs : List String :=
  ["_current_player", "_players",
   "reset", "first", "second", "third", "_get_leaderboard",
   "__init__", "__getitem__", "__iter__", "__len__", "__next__",
   "__str__", "__eq__", "__hash__", "__doc__", "__module__", "__dict__",
   "__weakref__", "__class__", "__new__", "__repr__", "__setattr__",
   "__delattr__", "__getattribute__", "__ne__", "__lt__", "__le__",
   "__gt__", "__ge__", "__dir__", "__sizeof__", "__reduce__",
   "__reduce_ex__", "__format__", "__init_subclass__",
   "__subclasshook__"]

/-- The registration loop of `Players.__init__`: for each name in
order, raise `InvalidPlayerError(name)` (modelled as `Except.error name`)
when the object already has an attribute called `name`, otherwise create
a `Player` with an empty hand, append it, and register the name as a new
attribute (`setattr`). `attrs` is the set of attribute names visible so
far. -/
def playersInitGo (attrs : List String) : List String → Except String (List Player)
  | [] => Except.ok []
  | n :: rest =>
    if attrs.contains n then Except.error n
    else (playersInitGo (n :: attrs) rest).map (fun ps => Player.mk n [] :: ps)

/-- `Players.__init__(names)`. -/
def playersInit (names : List String) : Except String (List Player) :=
  playersInitGo playersBaseAttrs names

/-- The state of a `Game` object. -/
structure GameState where
  players : List Player
  deck : List Card
  currentRound : Nat
  isActive : Bool
  maxRounds : Nat
deriving DecidableEq, Repr

/-- The errors `Game.__init__` can raise (`GameError` for the two
argument checks, `InvalidPlayerError(name)` from `Players.__init__`). -/
inductive GameInitError where
  | invalidMaxRounds
  | invalidPlayerCount
  | invalidPlayer (name : String)
deriving DecidableEq, Repr

/-- `Game.__init__(names, deck, max_rounds)` with an explicit deck (the
message dictionary is presentation-only and the deck-creation default is
bypassed when a deck is supplied, as in the source's tests): check
`max_rounds < 1`, then `len(names) == 0`, then build the `Players`; on
success the round counter is 1 and the game is active. -/
def gameInit (names : List String) (deck : List Card) (maxRounds : Nat) :
    Except GameInitError GameState :=
  if maxRounds < 1 then Except.error .invalidMaxRounds
  else if names.length == 0 then Except.error .invalidPlayerCount
  else
    match playersInit names with
    | Except.error n => Except.error (.invalidPlayer n)
    | Except.ok ps =>
      Except.ok { players := ps, deck := deck, currentRound := 1,
                  isActive := true, maxRounds := maxRounds }

/-- The draw of one turn with the deck-exhaustion recovery of
`Game._next_round`: try `get_card`; on `DeckEmptyError` reinitialize the
deck to the standard 52 cards (`new_deck`), shuffle it (`perm`), and
draw again. Returns `(recovered, card, deck)`; the outer `none` marks
the (unreachable for a permutation `perm`) failure of the retried draw. -/
def drawFromDeck (perm : List Card → List Card) (d : List Card) :
    Option (Bool × Card × List Card) :=
  match getCard d with
  | some cd => some (false, cd.1, cd.2)
  | none =>
    match getCard (perm initiateDeck) with
    | some cd => some (true, cd.1, cd.2)
    | none => none

/-- The positive/negative branch selector of a turn
(`pos_result = player in self.players.first().players` in
`Game._next_round`, evaluated after the draw): membership of the player
in the first-place group of the CUMULATIVE leaderboard (round 0). -/
def turnBranch (ps : List Player) (p : Player) : Bool :=
  decide (p ∈ (Players.first ps 0).players)

/-- The per-turn data carried by the `TRUE TURN END` / `FALSE TURN END`
message: player name, which of the two branches fired, the drawn card,
and the player's cumulative score after the draw. -/
structure TurnEnd where
  playerName : String
  positive : Bool
  card : Card
  cumulativeScore : Nat
deriving DecidableEq, Repr

/-- One turn of `Game._next_round` for the player at index `i`: draw a
card (with exhaustion recovery), append it to the player's hand, and
compute the turn-end branch on the updated player set. -/
def turnStep (perm : List Card → List Card) (ps : List Player)
    (d : List Card) (i : Nat) (h : i < ps.length) :
    Option (List Player × List Card × TurnEnd) :=
  match drawFromDeck perm d with
  | none => none
  | some (_, c, d') =>
    let p' := (ps.get ⟨i, h⟩).drawCard c
    let ps' := ps.set i p'
    some (ps', d',
      { playerName := p'.name, positive := turnBranch ps' p', card := c,
        cumulativeScore := p'.score 0 })

/-- The turn loop of `Game._next_round`, fuel-indexed so that the
recursion is structural: players take turns in registration order
starting at index `i`. A turn never changes the number of players, so
starting with fuel `ps.length` and `i = 0` (as `turnLoop` does) the
fuel runs out exactly when `i` reaches the end of the player list. -/
def turnLoopAux (perm : List Card → List Card) :
    Nat → List Player → List Card → Nat →
    Option (List Player × List Card × List TurnEnd)
  | 0, ps, d, _ => some (ps, d, [])
  | fuel + 1, ps, d, i =>
    if h : i < ps.length then
      match turnStep perm ps d i h with
      | none => none
      | some (ps', d', ev) =>
        match turnLoopAux perm fuel ps' d' (i + 1) with
        | none => none
        | some (psF, dF, evs) => some (psF, dF, ev :: evs)
    else some (ps, d, [])

/-- The turn loop of `Game._next_round` over the whole player list. -/
def turnLoop (perm : List Card → List Card) (ps : List Player)
    (d : List Card) : Option (List Player × List Card × List TurnEnd) :=
  turnLoopAux perm ps.length ps d 0

/-- The end-of-round bookkeeping of `Game._next_round` (its last three
lines): if the current round has reached the configured maximum, call
`end_game()` (mark inactive); then increment the round counter. -/
def endOfRound (g : GameState) : GameState :=
  let g1 := if g.currentRound ≥ g.maxRounds then { g with isActive := false } else g
  { g1 with currentRound := g1.currentRound + 1 }

/-- `Game._next_round`: run every player's turn, then the end-of-round
bookkeeping. -/
def nextRound (perm : List Card → List Card) (g : GameState) :
    Option (GameState × List TurnEnd) :=
  match turnLoop perm g.players g.deck with
  | none => none
  | some (ps, d, evs) =>
    some (endOfRound { g with players := ps, deck := d }, evs)

/-- The `while self._is_active` loop of `Game.play`, with explicit fuel
(each iteration increments the round counter, so
`maxRounds - currentRound + 1` rounds always suffice). -/
def playRounds (perm : List Card → List Card) :
    Nat → GameState → Option (GameState × List TurnEnd)
  | 0, g => if g.isActive then none else some (g, [])
  | fuel + 1, g =>
    if g.isActive then
      match nextRound perm g with
      | none => none
      | some (g', evs) =>
        match playRounds perm fuel g' with
        | none => none
        | some (gF, evsF) => some (gF, evs ++ evsF)
    else some (g, [])

/-- `Game.play`: run rounds until the game is inactive. -/
def play (perm : List Card → List Card) (g : GameState) :
    Option (GameState × List TurnEnd) :=
  playRounds perm (g.maxRounds + 1 - g.currentRound) g

/-- The branch selector as the specification describes it, for
comparison with `turnBranch`: membership in the first-place group of
the leaderboard for the given round only (round-scoped score, not
cumulative). -/
def turnBranchClaimed (ps : List Player) (p : Player) (rn : Nat) : Bool :=
  decide (p ∈ (Players.first ps rn).players)

/-- The nine-card deck of the GAME_5 scenario, bottom first (the top of
the deck is the last element, `Spades-10`). -/
def game5Deck : List Card :=
  [⟨.clubs, .r6⟩, ⟨.spades, .r8⟩, ⟨.diamonds, .r3⟩, ⟨.clubs, .r9⟩,
   ⟨.clubs, .ace⟩, ⟨.spades, .king⟩, ⟨.diamonds, .r5⟩, ⟨.diamonds, .r3⟩,
   ⟨.spades, .r10⟩]

/-- The GAME_5 scenario: participants Berkelly, Cez, Tonto in that
registration order, the nine-card deck above, 3 max rounds, played to
the end. The supplied deck is adopted unshuffled (as in the source),
so the shuffle parameter is only ever applied on exhaustion recovery,
which this deck never triggers. -/
def game5Run : Option (GameState × List TurnEnd) :=
  match gameInit ["Berkelly", "Cez", "Tonto"] game5Deck 3 with
  | Except.ok g => play id g
  | Except.error _ => none

/-- The player state of the GAME_5 scenario immediately after
Berkelly's round-3 draw (`Diamonds-3`): Berkelly holds
Spades-10, Spades-King, Diamonds-3 (cumulative 29, round-3 score 6);
Cez holds Diamonds-3, Clubs-Ace (cumulative 62, round-3 score 0);
Tonto holds Diamonds-5, Clubs-9 (cumulative 46, round-3 score 0). -/
def c1Players : List Player :=
  [⟨"Berkelly", [⟨.spades, .r10⟩, ⟨.spades, .king⟩, ⟨.diamonds, .r3⟩]⟩,
   ⟨"Cez", [⟨.diamonds, .r3⟩, ⟨.clubs, .ace⟩]⟩,
   ⟨"Tonto", [⟨.diamonds, .r5⟩, ⟨.clubs, .r9⟩]⟩]

/-- Berkelly as of that same moment. -/
def c1Berkelly : Player :=
  ⟨"Berkelly", [⟨.spades, .r10⟩, ⟨.spades, .king⟩, ⟨.diamonds, .r3⟩]⟩

/-- A game state at the end of whose round the round limit has been
reached (round 1 of a 1-round game). -/
def c4Game : GameState :=
  { players := [⟨"Berkelly", []⟩], deck := [], currentRound := 1,
    isActive := true, maxRounds := 1 }

/-- Three players with scores 10, 10, 5: a two-way tie for first place
followed by a strictly lower third player. -/
def demoTiePlayers : List Player :=
  [⟨"A", [⟨.spades, .r10⟩]⟩, ⟨"B", [⟨.diamonds, .r5⟩]⟩,
   ⟨"C", [⟨.spades, .r5⟩]⟩]

/-- The first of the two tied players above. -/
def demoA : Player := ⟨"A", [⟨.spades, .r10⟩]⟩

/-- The second of the two tied players above. -/
def demoB : Player := ⟨"B", [⟨.diamonds, .r5⟩]⟩

/-- Three players with pairwise distinct scores 10, 5, 15. -/
def demoDistinctPlayers : List Player :=
  [⟨"A", [⟨.spades, .r10⟩]⟩, ⟨"B", [⟨.spades, .r5⟩]⟩,
   ⟨"C", [⟨.hearts, .r5⟩]⟩]

/-- A player with two cards in hand (scores 10 and 13), used to witness
the score lemmas at a concrete input. -/
def wPlayer : Player :=
  ⟨"Berkelly", [⟨.spades, .r10⟩, ⟨.spades, .king⟩]⟩

/-- A one-player, one-card input used to witness the turn-step theorem
at a concrete input. -/
def wPlayers : List Player := [⟨"Berkelly", []⟩]

/-- The deck for that witness input. -/
def wDeck : List Card := [⟨.spades, .r10⟩]

/-!
Helper lemmas shared by the claim theorems below.
-/

/-- Rounds beyond the hand length score zero. -/
theorem score_of_hand_lt (p : Player) (r : Nat) (hr : p.hand.length < r) :
    p.score r = 0 := by
  have hne : r ≠ 0 := by omega
  simp [Player.score, hne, hr]

/-- Rounds within the hand length score the card drawn that round. -/
theorem score_of_le_hand (p : Player) (r : Nat) (h1 : 1 ≤ r)
    (h2 : r ≤ p.hand.length) :
    ∃ c, p.hand[r - 1]? = some c ∧ p.score r = c.score := by
  have hne : r ≠ 0 := by omega
  have hlt : r - 1 < p.hand.length := by omega
  refine ⟨p.hand[r - 1], List.getElem?_eq_getElem hlt, ?_⟩
  simp [Player.score, hne, Nat.not_lt.mpr h2, List.getElem?_eq_getElem hlt]

/-- The per-round scores over rounds `1..hand length` are exactly the
card scores of the hand in draw order. -/
theorem range_map_score (p : Player) :
    (List.range p.hand.length).map (fun i => p.score (i + 1)) =
      p.hand.map Card.score := by
  apply List.ext_getElem
  · simp
  · intro i h1 h2
    have hi : i < p.hand.length := by simpa using h2
    have hne : i + 1 ≠ 0 := by omega
    have hnlt : ¬ i + 1 > p.hand.length := by omega
    simp [Player.score, hne, hnlt, List.getElem?_eq_getElem hi]

namespace Players

/-- The groups produced by the grouping sweep concatenate back to the
input list. -/
theorem groupRunsAux_flatten (rn : Nat) :
    ∀ (fuel : Nat) (l : List Player), l.length ≤ fuel →
      (groupRunsAux rn fuel l).flatten = l := by
  intro fuel
  induction fuel with
  | zero =>
    intro l h
    have : l = [] := List.length_eq_zero.mp (Nat.le_zero.mp h)
    subst this
    rfl
  | succ n ih =>
    intro l h
    cases l with
    | nil => rfl
    | cons p rest =>
      simp only [groupRunsAux, List.flatten_cons]
      rw [ih _ ?_]
      · simp [List.takeWhile_append_dropWhile]
      · have hsub : (rest.dropWhile
            (fun q : Player => decide (q.score rn = p.score rn))).length ≤
              rest.length :=
          (List.dropWhile_sublist _).length_le
        simp only [List.length_cons] at h
        omega

/-- The groups produced by the grouping sweep concatenate back to the
input list. -/
theorem groupRuns_flatten (rn : Nat) (l : List Player) :
    (groupRuns rn l).flatten = l :=
  groupRunsAux_flatten rn l.length l le_rfl

/-- Every group produced by the grouping sweep is nonempty. -/
theorem groupRunsAux_ne_nil (rn : Nat) :
    ∀ (fuel : Nat) (l : List Player), ∀ g ∈ groupRunsAux rn fuel l,
      g ≠ [] := by
  intro fuel
  induction fuel with
  | zero =>
    intro l g hg
    cases l <;> simp [groupRunsAux] at hg
  | succ n ih =>
    intro l g hg
    cases l with
    | nil => simp [groupRunsAux] at hg
    | cons p rest =>
      simp only [groupRunsAux, List.mem_cons] at hg
      rcases hg with h | h
      · subst h; simp
      · exact ih _ g h

/-- All members of one group share one score. -/
theorem groupRunsAux_score (rn : Nat) :
    ∀ (fuel : Nat) (l : List Player), ∀ g ∈ groupRunsAux rn fuel l,
      ∃ s, ∀ p ∈ g, p.score rn = s := by
  intro fuel
  induction fuel with
  | zero =>
    intro l g hg
    cases l <;> simp [groupRunsAux] at hg
  | succ n ih =>
    intro l g hg
    cases l with
    | nil => simp [groupRunsAux] at hg
    | cons p rest =>
      simp only [groupRunsAux, List.mem_cons] at hg
      rcases hg with h | h
      · subst h
        refine ⟨p.score rn, ?_⟩
        intro q hq
        rcases List.mem_cons.mp hq with h | h
        · subst h; rfl
        · simpa using List.mem_takeWhile_imp h
      · exact ih _ g h

/-- `mkPlace` keeps the group as the `players` field. -/
theorem mkPlace_players (rn k : Nat) (lis : List Player) :
    (mkPlace rn k lis).players = lis := by
  cases lis <;> rfl

/-- `mkPlace` lists exactly the members' names. -/
theorem mkPlace_names (rn k : Nat) (lis : List Player) :
    (mkPlace rn k lis).names = (mkPlace rn k lis).players.map Player.name := by
  cases lis <;> rfl

/-- On a nonempty group, `mkPlace` records the given place number. -/
theorem mkPlace_place (rn k : Nat) (lis : List Player) (h : lis ≠ []) :
    (mkPlace rn k lis).place = k := by
  cases lis with
  | nil => exact absurd rfl h
  | cons p rest => rfl

/-- The `players` fields of the leaderboard are the score groups of the
sorted player list. -/
theorem getLeaderboard_players (ps : List Player) (rn : Nat) :
    (getLeaderboard ps rn).map PlaceNT.players =
      groupRuns rn (sortPlayers ps rn) := by
  unfold getLeaderboard
  rw [List.map_map]
  have : (PlaceNT.players ∘ fun ig : Nat × List Player =>
      mkPlace rn (ig.1 + 1) ig.2) = Prod.snd := by
    funext ig
    exact mkPlace_players rn (ig.1 + 1) ig.2
  rw [this, List.enum_eq_enumFrom, List.enumFrom_map_snd]

/-- The place numbers attached to a list of nonempty groups enumerated
from `k` are `k + 1, k + 2, ...`. -/
theorem enumFrom_mkPlace_place (rn : Nat) :
    ∀ (gs : List (List Player)) (k : Nat), (∀ g ∈ gs, g ≠ []) →
      (gs.enumFrom k).map (fun ig => (mkPlace rn (ig.1 + 1) ig.2).place) =
        List.range' (k + 1) gs.length := by
  intro gs
  induction gs with
  | nil => intro k _; rfl
  | cons g gs ih =>
    intro k hne
    rw [List.enumFrom_cons, List.map_cons, List.length_cons,
      List.range'_succ (k + 1) gs.length 1]
    rw [mkPlace_place rn (k + 1) g (hne g (List.mem_cons_self g gs))]
    rw [ih (k + 1) (fun g' hg' => hne g' (List.mem_cons_of_mem g hg'))]

/-- The place numbers of the leaderboard are exactly `1, 2, ...,
number of groups`: each group advances the place counter by exactly
one, independently of the group's size. -/
theorem getLeaderboard_places (ps : List Player) (rn : Nat) :
    (getLeaderboard ps rn).map PlaceNT.place =
      List.range' 1 (getLeaderboard ps rn).length := by
  unfold getLeaderboard
  rw [List.map_map, List.length_map, List.enum_eq_enumFrom]
  have hlen : (List.enumFrom 0 (groupRuns rn (sortPlayers ps rn))).length =
      (groupRuns rn (sortPlayers ps rn)).length := by
    simp
  rw [hlen]
  exact enumFrom_mkPlace_place rn (groupRuns rn (sortPlayers ps rn)) 0
    (groupRunsAux_ne_nil rn _ _)

/-- Every leaderboard entry is `mkPlace` of a group of the sorted
list. -/
theorem mem_getLeaderboard (ps : List Player) (rn : Nat) (pl : PlaceNT)
    (hpl : pl ∈ getLeaderboard ps rn) :
    ∃ k g, g ∈ groupRuns rn (sortPlayers ps rn) ∧ pl = mkPlace rn (k + 1) g := by
  unfold getLeaderboard at hpl
  rcases List.mem_map.mp hpl with ⟨⟨k, g⟩, hmem, heq⟩
  refine ⟨k, g, ?_, heq.symm⟩
  rw [List.enum_eq_zip_range] at hmem
  exact (List.of_mem_zip hmem).2

/-- A leaderboard position beyond the number of groups does not exist:
looking it up returns the empty sentinel place. -/
theorem lookupPlace_of_length_lt (ps : List Player) (rn k : Nat)
    (hk : (getLeaderboard ps rn).length < k) :
    lookupPlace (getLeaderboard ps rn) k = EMPTY_PLACE := by
  have hfind : (getLeaderboard ps rn).find? (fun pl => pl.place == k) = none := by
    apply List.find?_eq_none.mpr
    intro pl hpl
    have hmem : pl.place ∈ (getLeaderboard ps rn).map PlaceNT.place :=
      List.mem_map_of_mem PlaceNT.place hpl
    rw [getLeaderboard_places ps rn] at hmem
    rcases List.mem_range'.mp hmem with ⟨i, hi, heq⟩
    simp only [beq_iff_eq]
    omega
  simp [lookupPlace, hfind]

/-- One leaderboard line per member name: the rendered line list has
one entry per player. -/
theorem leaderboardLines_length (ps : List Player) :
    (leaderboardLines ps).length = ps.length := by
  unfold leaderboardLines
  rw [List.length_flatten, List.map_map]
  have h1 : (getLeaderboard ps 0).map ((fun l : List String => l.length) ∘
        fun pl : PlaceNT => pl.names.map (fun n => renderLine pl.place n pl.score)) =
      (getLeaderboard ps 0).map (fun pl : PlaceNT => pl.players.length) := by
    apply List.map_congr_left
    intro pl hpl
    rcases mem_getLeaderboard ps 0 pl hpl with ⟨k, g, _, rfl⟩
    simp only [Function.comp_apply, List.length_map, mkPlace_names,
      List.length_map]
  rw [h1]
  have h2 : (getLeaderboard ps 0).map (fun pl : PlaceNT => pl.players.length) =
      ((getLeaderboard ps 0).map PlaceNT.players).map List.length := by
    rw [List.map_map]
    rfl
  rw [h2, ← List.length_flatten, getLeaderboard_players, groupRuns_flatten]
  exact List.length_insertionSort _ ps

end Players

/-- The registration loop succeeds exactly when the names are pairwise
distinct and none of them collides with an already visible attribute. -/
theorem playersInitGo_ok_iff (names : List String) :
    ∀ attrs : List String,
      (∃ ps, playersInitGo attrs names = Except.ok ps) ↔
        (names.Nodup ∧ ∀ n ∈ names, n ∉ attrs) := by
  induction names with
  | nil =>
    intro attrs
    simp [playersInitGo]
  | cons n rest ih =>
    intro attrs
    by_cases hc : n ∈ attrs
    · have hcb : attrs.contains n = true := by simpa using hc
      simp only [playersInitGo, hcb, if_true]
      constructor
      · rintro ⟨ps, hps⟩
        exact absurd hps (by simp)
      · rintro ⟨_, hall⟩
        exact absurd hc (hall n (List.mem_cons_self n rest))
    · have hcb : attrs.contains n = false := by simpa using hc
      simp only [playersInitGo, hcb, Bool.false_eq_true, if_false]
      cases hgo : playersInitGo (n :: attrs) rest with
      | error e =>
        simp only [Except.map]
        constructor
        · rintro ⟨ps, hps⟩
          exact absurd hps (by simp)
        · rintro ⟨hnd, hall⟩
          have : ∃ ps, playersInitGo (n :: attrs) rest = Except.ok ps := by
            refine (ih (n :: attrs)).mpr ⟨(List.nodup_cons.mp hnd).2, ?_⟩
            intro m hm
            simp only [List.mem_cons, not_or]
            exact ⟨fun hmn => (List.nodup_cons.mp hnd).1 (hmn ▸ hm),
              hall m (List.mem_cons_of_mem n hm)⟩
          rcases this with ⟨ps, hps⟩
          rw [hgo] at hps
          exact absurd hps (by simp)
      | ok ps' =>
        simp only [Except.map]
        constructor
        · intro _
          have hrest := (ih (n :: attrs)).mp ⟨ps', hgo⟩
          refine ⟨List.nodup_cons.mpr ⟨?_, hrest.1⟩, ?_⟩
          · intro hmem
            have := hrest.2 n hmem
            simp at this
          · intro m hm
            rcases List.mem_cons.mp hm with h | h
            · exact h ▸ hc
            · have := hrest.2 m h
              simp only [List.mem_cons, not_or] at this
              exact this.2
        · intro _
          exact ⟨Player.mk n [] :: ps', rfl⟩

/-- On success the registration loop builds one empty-handed player per
name, in order. -/
theorem playersInitGo_ok_val (names : List String) :
    ∀ (attrs : List String) (ps : List Player),
      playersInitGo attrs names = Except.ok ps →
        ps = names.map (fun n => Player.mk n []) := by
  induction names with
  | nil =>
    intro attrs ps hps
    simp only [playersInitGo] at hps
    cases hps
    rfl
  | cons n rest ih =>
    intro attrs ps hps
    simp only [playersInitGo] at hps
    by_cases hc : attrs.contains n
    · rw [if_pos hc] at hps
      exact absurd hps (by simp)
    · rw [if_neg hc] at hps
      cases hgo : playersInitGo (n :: attrs) rest with
      | error e =>
        rw [hgo] at hps
        exact absurd hps (by simp [Except.map])
      | ok ps' =>
        rw [hgo] at hps
        simp only [Except.map, Except.ok.injEq] at hps
        rw [List.map_cons, ← ih (n :: attrs) ps' hgo, ← hps]

/-- The registration loop fails as soon as some name collides with a
visible attribute. -/
theorem playersInitGo_error_of_mem (names : List String) :
    ∀ (attrs : List String) (n : String), n ∈ names → n ∈ attrs →
      ∃ m, playersInitGo attrs names = Except.error m := by
  induction names with
  | nil =>
    intro attrs n hn _
    exact absurd hn (by simp)
  | cons k rest ih =>
    intro attrs n hn hattr
    by_cases hk : k ∈ attrs
    · have hkb : attrs.contains k = true := by simpa using hk
      refine ⟨k, ?_⟩
      simp only [playersInitGo]
      rw [if_pos hkb]
    · have hkb : ¬ attrs.contains k = true := by simpa using hk
      have hnk : n ≠ k := fun h => hk (h ▸ hattr)
      have hnrest : n ∈ rest := by
        rcases List.mem_cons.mp hn with h | h
        · exact absurd h hnk
        · exact h
      rcases ih (k :: attrs) n hnrest (List.mem_cons_of_mem k hattr) with
        ⟨m, hm⟩
      refine ⟨m, ?_⟩
      simp only [playersInitGo]
      rw [if_neg hkb, hm]
      rfl

/-- A nonempty deck has a top card, so `get_card` succeeds on it. -/
theorem getCard_of_ne_nil (d : List Card) (h : d ≠ []) :
    ∃ c, getCard d = some (c, d.dropLast) := by
  cases hl : d.getLast? with
  | none => exact absurd (List.getLast?_eq_none_iff.mp hl) h
  | some c =>
    refine ⟨c, ?_⟩
    simp [getCard, hl]

/-- The witness player list is nonempty. -/
theorem wPlayers_lt : 0 < wPlayers.length := by decide

/-!
Claim theorems.
-/

/-- C6: for every participant, the cumulative score `score(0)` is the
sum of the card scores over the whole hand, and equals the sum of the
per-round scores `score(r)` for `r = 1..hand length`; for `r > 0`,
`score(r)` is the score of the `r`-th drawn card when `r` is at most
the hand length, and `0` when `r` exceeds the hand length. -/
theorem claim_C6 (p : Player) :
    p.score 0 = (p.hand.map Card.score).sum ∧
    p.score 0 =
      ((List.range p.hand.length).map (fun i => p.score (i + 1))).sum ∧
    (∀ r : Nat, p.hand.length < r → p.score r = 0) ∧
    (∀ r : Nat, 1 ≤ r → r ≤ p.hand.length →
      ∃ c, p.hand[r - 1]? = some c ∧ p.score r = c.score) := by
  refine ⟨by simp [Player.score], ?_,
    fun r hr => score_of_hand_lt p r hr,
    fun r h1 h2 => score_of_le_hand p r h1 h2⟩
  rw [range_map_score p]
  simp [Player.score]

/-- Witness for C6 at a concrete two-card player: round 5 exceeds the
hand and scores 0; round 2 scores the second drawn card. -/
theorem claim_C6_witness :
    (wPlayer.hand.length < 5 ∧ wPlayer.score 5 = 0) ∧
    (1 ≤ 2 ∧ 2 ≤ wPlayer.hand.length ∧
      ∃ c, wPlayer.hand[2 - 1]? = some c ∧ wPlayer.score 2 = c.score) :=
  ⟨⟨by decide, (claim_C6 wPlayer).2.2.1 5 (by decide)⟩,
   ⟨by decide, by decide, (claim_C6 wPlayer).2.2.2 2 (by decide) (by decide)⟩⟩

/-- C7: the leaderboard string renders one line per participant name
(in place order then within-group order), each line
`"<place>: <name> (<score>)"`, joined by newlines with no trailing
newline; it is the empty string for zero participants, and three
participants with distinct scores render three lines in descending
score order. -/
theorem claim_C7 (ps : List Player) :
    (Players.leaderboardLines ps).length = ps.length ∧
    Players.str ps = String.intercalate "\n" (Players.leaderboardLines ps) ∧
    Players.str [] = "" ∧
    Players.leaderboardLines demoDistinctPlayers =
      ["1: C (15)", "2: A (10)", "3: B (5)"] ∧
    Players.str demoDistinctPlayers = "1: C (15)\n2: A (10)\n3: B (5)" :=
  ⟨Players.leaderboardLines_length ps, rfl, rfl, by decide, by decide⟩

/-- C8: the accessors `first`, `second`, `third` return the empty
sentinel place (no representative, empty member and name lists, score
0, tie false) whenever the requested leaderboard position does not
exist — in particular for the empty participant set. -/
theorem claim_C8 (ps : List Player) (rn : Nat) :
    ((Players.getLeaderboard ps rn).length < 1 →
      Players.first ps rn = EMPTY_PLACE) ∧
    ((Players.getLeaderboard ps rn).length < 2 →
      Players.second ps rn = EMPTY_PLACE) ∧
    ((Players.getLeaderboard ps rn).length < 3 →
      Players.third ps rn = EMPTY_PLACE) ∧
    Players.first [] rn = EMPTY_PLACE ∧
    Players.second [] rn = EMPTY_PLACE ∧
    Players.third [] rn = EMPTY_PLACE ∧
    EMPTY_PLACE.player = none ∧ EMPTY_PLACE.players = [] ∧
    EMPTY_PLACE.name = none ∧ EMPTY_PLACE.names = [] ∧
    EMPTY_PLACE.score = 0 ∧ EMPTY_PLACE.tie = false :=
  ⟨fun h => Players.lookupPlace_of_length_lt ps rn 1 h,
   fun h => Players.lookupPlace_of_length_lt ps rn 2 h,
   fun h => Players.lookupPlace_of_length_lt ps rn 3 h,
   rfl, rfl, rfl, rfl, rfl, rfl, rfl, rfl, rfl⟩

/-- Witness for C8 at the empty participant set. -/
theorem claim_C8_witness :
    (Players.getLeaderboard ([] : List Player) 0).length < 1 ∧
    Players.first ([] : List Player) 0 = EMPTY_PLACE :=
  ⟨by decide, (claim_C8 [] 0).1 (by decide)⟩

/-- C2: for every participant set and round selector, the leaderboard
partitions the stable descending sort of the participants into groups
of equal score (the sort is descending, a permutation of the input, and
keeps tied participants in registration order), and the place numbers
are exactly `1, 2, ..., number of groups` — a tie group advances the
place counter by exactly 1; concretely, two players tied for first
followed by a strictly lower one get places `1, 1, 2`. -/
theorem claim_C2 (ps : List Player) (rn : Nat) :
    ((Players.getLeaderboard ps rn).map PlaceNT.players).flatten =
      Players.sortPlayers ps rn ∧
    List.Sorted (Players.playerLe rn) (Players.sortPlayers ps rn) ∧
    (Players.sortPlayers ps rn).Perm ps ∧
    (∀ a b : Player, a.score rn = b.score rn → [a, b].Sublist ps →
      [a, b].Sublist (Players.sortPlayers ps rn)) ∧
    (Players.getLeaderboard ps rn).map PlaceNT.place =
      List.range' 1 (Players.getLeaderboard ps rn).length ∧
    (∀ pl ∈ Players.getLeaderboard ps rn, ∀ p ∈ pl.players,
      p.score rn = pl.score) ∧
    (Players.getLeaderboard demoTiePlayers 0).map
      (fun pl => (pl.place, pl.names)) = [(1, ["A", "B"]), (2, ["C"])] := by
  refine ⟨?_, ?_, ?_, ?_, ?_, ?_, by decide⟩
  · rw [Players.getLeaderboard_players, Players.groupRuns_flatten]
  · exact List.sorted_insertionSort (Players.playerLe rn) ps
  · exact List.perm_insertionSort (Players.playerLe rn) ps
  · intro a b hs hsub
    exact List.pair_sublist_insertionSort (Nat.le_of_eq hs.symm) hsub
  · exact Players.getLeaderboard_places ps rn
  · intro pl hpl p hp
    rcases Players.mem_getLeaderboard ps rn pl hpl with ⟨k, g, hg, rfl⟩
    rw [Players.mkPlace_players] at hp
    rcases Players.groupRunsAux_score rn _ _ g hg with ⟨s, hall⟩
    cases g with
    | nil => exact absurd rfl (Players.groupRunsAux_ne_nil rn _ _ [] hg)
    | cons g0 grest =>
      have h1 : p.score rn = s := hall p hp
      have h2 : g0.score rn = s := hall g0 (List.mem_cons_self g0 grest)
      rw [h1, ← h2]
      rfl

/-- Witness for C2: the two players tied at score 10 appear, in
registration order, as a sublist of the stable descending sort. -/
theorem claim_C2_witness :
    (demoA.score 0 = demoB.score 0 ∧
      [demoA, demoB].Sublist demoTiePlayers) ∧
    [demoA, demoB].Sublist (Players.sortPlayers demoTiePlayers 0) :=
  ⟨⟨by decide, by decide⟩,
   (claim_C2 demoTiePlayers 0).2.2.2.1 demoA demoB (by decide) (by decide)⟩

/-- C5: the reinitialized deck has 52 cards (never empty), and for any
length-preserving shuffle the draw-with-recovery always yields a card —
performing the reinitialize/reshuffle/retry cycle exactly when the deck
was empty (the recovery flag equals `d.isEmpty`, and the single retried
draw succeeds) — so the exhaustion error never escapes to the caller. -/
theorem claim_C5 :
    initiateDeck.length = 52 ∧
    ∀ perm : List Card → List Card, (∀ l, (perm l).length = l.length) →
      ∀ d : List Card,
        ∃ c d', drawFromDeck perm d = some (d.isEmpty, c, d') := by
  refine ⟨by decide, ?_⟩
  intro perm hperm d
  cases d with
  | cons a as =>
    rcases getCard_of_ne_nil (a :: as) (by simp) with ⟨c, hc⟩
    exact ⟨c, (a :: as).dropLast, by simp [drawFromDeck, hc]⟩
  | nil =>
    have hlen : (perm initiateDeck).length = 52 := by
      rw [hperm]
      decide
    have hne : perm initiateDeck ≠ [] := by
      intro h
      rw [h] at hlen
      exact absurd hlen (by decide)
    rcases getCard_of_ne_nil (perm initiateDeck) hne with ⟨c, hc⟩
    refine ⟨c, (perm initiateDeck).dropLast, ?_⟩
    have h0 : drawFromDeck perm [] =
        match getCard (perm initiateDeck) with
        | some cd => some (true, cd.1, cd.2)
        | none => none := rfl
    rw [h0, hc]
    rfl

/-- Witness for C5: the identity shuffle is length-preserving, and a
draw from the empty deck succeeds through the recovery cycle. -/
theorem claim_C5_witness :
    (∀ l : List Card, (id l).length = l.length) ∧
    ∃ c d', drawFromDeck id [] = some (List.isEmpty ([] : List Card), c, d') :=
  ⟨fun _ => rfl, claim_C5.2 id (fun _ => rfl) []⟩

/-- C1 fails on the code: the turn-end branch compares against the
CUMULATIVE first-place group (`self.players.first()` with no round
argument), not the current round's. At the player state right after
Berkelly's round-3 draw of the GAME_5 scenario, Berkelly leads round 3
(scores 6 vs 0 vs 0), so the claimed round-scoped check yields the
positive branch — but the code takes the negative branch (Cez leads the
cumulative standing 62 vs 46 vs 29), as the 7th turn-end event of the
simulated run confirms. -/
theorem claim_C1_counterexample :
    turnBranch c1Players c1Berkelly = false ∧
    turnBranchClaimed c1Players c1Berkelly 3 = true ∧
    (game5Run.map (fun x => x.2[6]?)) =
      some (some ⟨"Berkelly", false, ⟨.diamonds, .r3⟩, 29⟩) := by
  refine ⟨by decide, by decide, by decide⟩

/-- C1 (amended): immediately after the participant's draw is appended
to their hand, the positive/negative turn-end branch is determined by
whether that participant is a member of the first-place group of the
CUMULATIVE leaderboard (round 0), recomputed fresh from the ranking
engine on the post-draw participant set. -/
theorem claim_C1 (perm : List Card → List Card) (ps : List Player)
    (d : List Card) (i : Nat) (h : i < ps.length)
    (ps' : List Player) (d' : List Card) (ev : TurnEnd)
    (heq : turnStep perm ps d i h = some (ps', d', ev)) :
    ps' = ps.set i ((ps.get ⟨i, h⟩).drawCard ev.card) ∧
    ev.positive =
      decide (((ps.get ⟨i, h⟩).drawCard ev.card) ∈
        (Players.first ps' 0).players) ∧
    ev.cumulativeScore = ((ps.get ⟨i, h⟩).drawCard ev.card).score 0 ∧
    ev.playerName = (ps.get ⟨i, h⟩).name := by
  unfold turnStep at heq
  cases hdraw : drawFromDeck perm d with
  | none =>
    rw [hdraw] at heq
    exact absurd heq (by simp)
  | some t =>
    obtain ⟨flag, c, d2⟩ := t
    rw [hdraw] at heq
    simp only [Option.some.injEq, Prod.mk.injEq] at heq
    obtain ⟨hps, _, hev⟩ := heq
    subst hps
    subst hev
    exact ⟨rfl, rfl, rfl, rfl⟩

/-- Witness for C1 at a one-player input: the single player draws
Spades-10, is alone in first place of the cumulative leaderboard, and
the positive branch fires. -/
theorem claim_C1_witness :
    turnStep id wPlayers wDeck 0 wPlayers_lt =
      some ([⟨"Berkelly", [⟨.spades, .r10⟩]⟩], [],
        ⟨"Berkelly", true, ⟨.spades, .r10⟩, 10⟩) ∧
    ([⟨"Berkelly", [⟨.spades, .r10⟩]⟩] : List Player) =
      wPlayers.set 0
        ((wPlayers.get ⟨0, wPlayers_lt⟩).drawCard ⟨.spades, .r10⟩) ∧
    (true : Bool) =
      decide (((wPlayers.get ⟨0, wPlayers_lt⟩).drawCard ⟨.spades, .r10⟩) ∈
        (Players.first [⟨"Berkelly", [⟨.spades, .r10⟩]⟩] 0).players) ∧
    (10 : Nat) =
      ((wPlayers.get ⟨0, wPlayers_lt⟩).drawCard ⟨.spades, .r10⟩).score 0 ∧
    "Berkelly" = (wPlayers.get ⟨0, wPlayers_lt⟩).name :=
  ⟨by decide,
   claim_C1 id wPlayers wDeck 0 wPlayers_lt
     [⟨"Berkelly", [⟨.spades, .r10⟩]⟩] []
     ⟨"Berkelly", true, ⟨.spades, .r10⟩, 10⟩ (by decide)⟩

/-- C4 fails on the code: at the end of a round that has reached the
round limit (round 1 of a 1-round game) the game does transition to
inactive, but the round counter is STILL incremented — the increment is
unconditional, not the alternative of the GAME_OVER transition. -/
theorem claim_C4_counterexample :
    c4Game.currentRound ≥ c4Game.maxRounds ∧
    (endOfRound c4Game).isActive = false ∧
    (endOfRound c4Game).currentRound = c4Game.currentRound + 1 := by
  refine ⟨by decide, by decide, by decide⟩

/-- C4 (amended): at the end of every round, if the current round
number has reached the configured maximum the game transitions to
inactive (GAME_OVER); the round counter is then incremented
UNCONDITIONALLY, in both branches. -/
theorem claim_C4 (g : GameState) :
    (endOfRound g).currentRound = g.currentRound + 1 ∧
    (g.currentRound ≥ g.maxRounds → (endOfRound g).isActive = false) ∧
    (g.currentRound < g.maxRounds → (endOfRound g).isActive = g.isActive) ∧
    (∀ (perm : List Card → List Card) (g' : GameState) (evs : List TurnEnd),
      nextRound perm g = some (g', evs) →
        g'.currentRound = g.currentRound + 1 ∧
        (g.currentRound ≥ g.maxRounds → g'.isActive = false)) := by
  refine ⟨?_, ?_, ?_, ?_⟩
  · by_cases hge : g.currentRound ≥ g.maxRounds <;> simp [endOfRound, hge]
  · intro hge
    simp [endOfRound, hge]
  · intro hlt
    have hge : ¬ g.currentRound ≥ g.maxRounds := by omega
    simp [endOfRound, hge]
  · intro perm g' evs heq
    unfold nextRound at heq
    cases hloop : turnLoop perm g.players g.deck with
    | none =>
      rw [hloop] at heq
      exact absurd heq (by simp)
    | some t =>
      obtain ⟨ps, d, evs'⟩ := t
      rw [hloop] at heq
      simp only [Option.some.injEq, Prod.mk.injEq] at heq
      obtain ⟨hg, _⟩ := heq
      subst hg
      constructor
      · by_cases hge : g.currentRound ≥ g.maxRounds <;> simp [endOfRound, hge]
      · intro hge
        simp [endOfRound, hge]

/-- Witness for C4 at the concrete round-limit state. -/
theorem claim_C4_witness :
    c4Game.currentRound ≥ c4Game.maxRounds ∧
    (endOfRound c4Game).isActive = false :=
  ⟨by decide, (claim_C4 c4Game).2.1 (by decide)⟩

/-- C9 fails on the code: the participant name `"first"` is not
repeated, the list is nonempty and the max-round count is valid, yet
construction fails (the `hasattr`-based duplicate check also rejects
names that collide with pre-existing attributes of the participant-set
object). -/
theorem claim_C9_counterexample :
    gameInit ["first"] [] 3 =
      Except.error (GameInitError.invalidPlayer "first") ∧
    (["first"] : List String) ≠ [] ∧
    List.Nodup ["first"] ∧
    ¬ (3 : Nat) < 1 := by
  refine ⟨rfl, by decide, by decide, by decide⟩

/-- C9 (amended): game construction fails fast, producing no game,
exactly when the name list is empty, the configured max-rounds is less
than 1, a name is repeated, OR a name collides with a pre-existing
attribute of the participant-set object; otherwise it succeeds with the
round counter at 1, the game active, and one empty-handed player per
name in order. -/
theorem claim_C9 (names : List String) (deck : List Card) (mr : Nat) :
    ((∃ g, gameInit names deck mr = Except.ok g) ↔
      (1 ≤ mr ∧ names ≠ [] ∧ names.Nodup ∧
        ∀ n ∈ names, n ∉ playersBaseAttrs)) ∧
    (∀ g, gameInit names deck mr = Except.ok g →
      g.currentRound = 1 ∧ g.isActive = true ∧
      g.players = names.map (fun n => Player.mk n []) ∧
      g.deck = deck ∧ g.maxRounds = mr) := by
  unfold gameInit
  by_cases h1 : mr < 1
  · rw [if_pos h1]
    constructor
    · constructor
      · rintro ⟨g, hg⟩
        exact absurd hg (by simp)
      · rintro ⟨hmr, _⟩
        omega
    · intro g hg
      exact absurd hg (by simp)
  · rw [if_neg h1]
    by_cases h2 : names.length == 0
    · rw [if_pos h2]
      have hnil : names = [] := List.length_eq_zero.mp (by simpa using h2)
      constructor
      · constructor
        · rintro ⟨g, hg⟩
          exact absurd hg (by simp)
        · rintro ⟨_, hne, _⟩
          exact absurd hnil hne
      · intro g hg
        exact absurd hg (by simp)
    · rw [if_neg h2]
      have hne : names ≠ [] := by
        intro h
        subst h
        simp at h2
      cases hpi : playersInit names with
      | error e =>
        constructor
        · constructor
          · rintro ⟨g, hg⟩
            exact absurd hg (by simp)
          · rintro ⟨_, _, hnd, hall⟩
            rcases (playersInitGo_ok_iff names playersBaseAttrs).mpr
              ⟨hnd, hall⟩ with ⟨ps, hps⟩
            rw [show playersInit names = playersInitGo playersBaseAttrs names
              from rfl, hps] at hpi
            exact absurd hpi (by simp)
        · intro g hg
          exact absurd hg (by simp)
      | ok ps =>
        constructor
        · constructor
          · intro _
            have hok : ∃ ps', playersInitGo playersBaseAttrs names =
                Except.ok ps' := ⟨ps, hpi⟩
            rcases (playersInitGo_ok_iff names playersBaseAttrs).mp hok with
              ⟨hnd, hall⟩
            exact ⟨by omega, hne, hnd, hall⟩
          · intro _
            exact ⟨_, rfl⟩
        · intro g hg
          simp only [Except.ok.injEq] at hg
          subst hg
          exact ⟨rfl, rfl, (playersInitGo_ok_val names playersBaseAttrs ps
            hpi).symm ▸ rfl, rfl, rfl⟩

/-- Witness for C9 at a valid one-name construction. -/
theorem claim_C9_witness :
    gameInit ["Berkelly"] [] 3 =
      Except.ok ⟨[⟨"Berkelly", []⟩], [], 1, true, 3⟩ ∧
    ((⟨[⟨"Berkelly", []⟩], [], 1, true, 3⟩ : GameState).currentRound = 1 ∧
      (⟨[⟨"Berkelly", []⟩], [], 1, true, 3⟩ : GameState).isActive = true ∧
      (⟨[⟨"Berkelly", []⟩], [], 1, true, 3⟩ : GameState).players =
        (["Berkelly"] : List String).map (fun n => Player.mk n []) ∧
      (⟨[⟨"Berkelly", []⟩], [], 1, true, 3⟩ : GameState).deck =
        ([] : List Card) ∧
      (⟨[⟨"Berkelly", []⟩], [], 1, true, 3⟩ : GameState).maxRounds = 3) :=
  ⟨rfl,
   (claim_C9 ["Berkelly"] [] 3).2 ⟨[⟨"Berkelly", []⟩], [], 1, true, 3⟩
     rfl⟩

/-- C10: because the duplicate check is `hasattr`, ANY name colliding
with a pre-existing attribute of the participant-set object raises
`InvalidPlayerError` — in particular the method names "first",
"second", "third" and "reset" — so some duplicate-free name lists fail
construction. -/
theorem claim_C10 :
    (∀ (names : List String) (n : String), n ∈ names →
      n ∈ playersBaseAttrs → ∃ m, playersInit names = Except.error m) ∧
    playersInit ["first"] = Except.error "first" ∧
    playersInit ["second"] = Except.error "second" ∧
    playersInit ["third"] = Except.error "third" ∧
    playersInit ["reset"] = Except.error "reset" ∧
    playersInit ["Berkelly", "first"] = Except.error "first" ∧
    List.Nodup ["Berkelly", "first"] := by
  refine ⟨?_, rfl, rfl, rfl, rfl, rfl, by decide⟩
  intro names n hn hattr
  exact playersInitGo_error_of_mem names playersBaseAttrs n hn hattr

/-- Witness for C10 at the duplicate-free list `["Berkelly", "first"]`. -/
theorem claim_C10_witness :
    ("first" ∈ (["Berkelly", "first"] : List String) ∧
      "first" ∈ playersBaseAttrs) ∧
    ∃ m, playersInit ["Berkelly", "first"] = Except.error m :=
  ⟨⟨by decide, by decide⟩,
   claim_C10.1 ["Berkelly", "first"] "first" (by decide) (by decide)⟩

/-- C3: the GAME_5 scenario (nine-card deck, participants Berkelly,
Cez, Tonto, 3 max rounds) ends after round 3 with cumulative scores
Berkelly 29, Cez 70, Tonto 70: first place is a tie between Cez and
Tonto at 70 (Cez first by registration order), and the final
leaderboard string is exactly
`"1: Cez (70)\n1: Tonto (70)\n2: Berkelly (29)"`. -/
theorem claim_C3 :
    (game5Run.map (fun x => x.1.players.map (fun p => (p.name, p.score 0)))) =
      some [("Berkelly", 29), ("Cez", 70), ("Tonto", 70)] ∧
    (game5Run.map (fun x => (Players.first x.1.players 0).tie)) = some true ∧
    (game5Run.map (fun x => (Players.first x.1.players 0).names)) =
      some ["Cez", "Tonto"] ∧
    (game5Run.map (fun x => (Players.first x.1.players 0).score)) = some 70 ∧
    (game5Run.map (fun x => Players.leaderboardLines x.1.players)) =
      some ["1: Cez (70)", "1: Tonto (70)", "2: Berkelly (29)"] ∧
    (game5Run.map (fun x => Players.str x.1.players)) =
      some "1: Cez (70)\n1: Tonto (70)\n2: Berkelly (29)" ∧
    (game5Run.map (fun x => x.1.isActive)) = some false ∧
    (game5Run.map (fun x => x.1.currentRound)) = some 4 := by
  refine ⟨by decide, by decide, by decide, by decide, by decide, by decide,
    by decide, by decide⟩

end Tonto
